import Mathlib

/-
Verification of the twe-dlp emote downloader (Go) against its design
specification.  Go strings are modelled as `List Char` (rune sequences;
the regular-expression character classes involved are ASCII, for which
byte-level and rune-level processing coincide).  Network and filesystem
effects are modelled by explicit oracle parameters so that the pure
decision logic of each function is captured faithfully.
-/

set_option autoImplicit false

namespace TweDlp

/-- Embeds Go `unicode.IsSpace` (the Unicode White_Space property) on a
single character, by code point: U+0009..U+000D, U+0020, U+0085, U+00A0,
U+1680, U+2000..U+200A, U+2028, U+2029, U+202F, U+205F, U+3000. -/
def isGoSpace (c : Char) : Bool :=
  decide ((9 ≤ c.toNat ∧ c.toNat ≤ 13) ∨ c.toNat = 32 ∨ c.toNat = 133 ∨
    c.toNat = 160 ∨ c.toNat = 5760 ∨ (8192 ≤ c.toNat ∧ c.toNat ≤ 8202) ∨
    c.toNat = 8232 ∨ c.toNat = 8233 ∨ c.toNat = 8239 ∨ c.toNat = 8287 ∨
    c.toNat = 12288)

/-- Embeds Go `strings.TrimSpace`: drop leading and trailing whitespace. -/
def trimSpace (l : List Char) : List Char :=
  ((l.dropWhile isGoSpace).reverse.dropWhile isGoSpace).reverse

/-- Embeds membership in the character class `[A-Za-z0-9_]` of the Go
regular expression `safeNamePattern = [^A-Za-z0-9_]+` (code points:
A-Z = 65..90, a-z = 97..122, 0-9 = 48..57, underscore = 95). -/
def isSafeChar (c : Char) : Bool :=
  decide ((65 ≤ c.toNat ∧ c.toNat ≤ 90) ∨ (97 ≤ c.toNat ∧ c.toNat ≤ 122) ∨
    (48 ≤ c.toNat ∧ c.toNat ≤ 57) ∨ c.toNat = 95)

mutual

/-- Embeds `safeNamePattern.ReplaceAllString(name, "_")` for the pattern
`[^A-Za-z0-9_]+`: every maximal run of characters outside the class is
replaced by a single underscore.  `skipRun` consumes the remainder of a
run after its first character has produced the underscore. -/
def replaceRuns : List Char → List Char
  | [] => []
  | c :: rest =>
    if isSafeChar c then c :: replaceRuns rest else '_' :: skipRun rest

/-- Consumes the tail of a run of unsafe characters, then resumes
`replaceRuns` at the first safe character. -/
def skipRun : List Char → List Char
  | [] => []
  | c :: rest =>
    if isSafeChar c then c :: replaceRuns rest else skipRun rest

end

/-- The literal `"unknown"` used as the sanitization fallback. -/
def unknownName : List Char := "unknown".toList

/-- Embeds `makeSafeName` (src/twe-dlp.go lines 44-54): trim whitespace;
empty gives `"unknown"`; otherwise collapse runs of disallowed characters
to single underscores; if that result is empty, `"unknown"`. -/
def makeSafeName (name : List Char) : List Char :=
  let trimmed := trimSpace name
  if trimmed = [] then unknownName
  else
    let safe := replaceRuns trimmed
    if safe = [] then unknownName else safe

example : makeSafeName "  Pog Champ!  ".toList = "Pog_Champ_".toList := by decide
example : makeSafeName [] = unknownName := by decide
example : makeSafeName ['-'] = ['_'] := by decide
example : makeSafeName "   ".toList = unknownName := by decide
example : makeSafeName "unknown".toList = unknownName := by decide

/-- Checks whether a pattern list is an initial segment of another list.
Used to embed literal matching steps of the Go regular expressions and
`strings.HasPrefix` / `strings.Contains`. -/
def leadsWith : List Char → List Char → Bool
  | [], _ => true
  | _ :: _, [] => false
  | p :: ps, c :: cs => p == c && leadsWith ps cs

/-- Embeds Go `strings.Contains(hay, needle)`: some contiguous substring
of `hay` equals `needle`. -/
def containsSub : List Char → List Char → Bool
  | [], needle => needle.isEmpty
  | c :: rest, needle => leadsWith needle (c :: rest) || containsSub rest needle

/-- Decimal digit test used by the resolver loop and by `\d` in the
channel-URL pattern (code points 48..57). -/
def isDigitChar (c : Char) : Bool :=
  decide (48 ≤ c.toNat ∧ c.toNat ≤ 57)

/-- Embeds the numeric-identifier loop of `resolveChannelIdentifierToID`
(src/twe-dlp.go lines 71-77): every character lies in '0'..'9'. -/
def isNumericStr (l : List Char) : Bool :=
  l.all isDigitChar

/-- The literal part of the Go pattern `channelURLPattern = /channels/(\d+)`. -/
def chanLit : List Char := "/channels/".toList

/-- Embeds `channelURLPattern.FindStringSubmatch` for the pattern
`/channels/(\d+)`, returning the first capture group: scan left to right
for the literal `/channels/` followed by at least one decimal digit, and
return the maximal digit run after the literal at the leftmost position
where such a match exists. -/
def findChannelsMatch : List Char → Option (List Char)
  | [] => none
  | c :: rest =>
    if leadsWith chanLit (c :: rest) then
      let digits := ((c :: rest).drop chanLit.length).takeWhile isDigitChar
      if digits = [] then findChannelsMatch rest else some digits
    else findChannelsMatch rest

example : findChannelsMatch "https://x.y/channels/12345?z".toList = some "12345".toList := by decide
example : findChannelsMatch "/channels/x/channels/77".toList = some "77".toList := by decide
example : findChannelsMatch "/channels/".toList = none := by decide

/-- Error outcomes of the identifier resolver (section 7 of the spec). -/
inductive ResolveError where
  | emptyIdentifier
  | requestBuildError
  | transportError
  | bodyReadError
  | resolutionFailed (identifier : List Char)
  deriving DecidableEq

/-- Oracle for the single POST performed by the resolver: either the
request could not be built, the transport failed, or a response arrived
carrying the final post-redirect URL and (if readable) the body text. -/
inductive NetResult where
  | requestErr
  | transportErr
  | response (finalURL : List Char) (body : Option (List Char))
  deriving DecidableEq

/-- Embeds `resolveChannelIdentifierToID` (src/twe-dlp.go lines 66-117).
The network interaction is supplied by the `net` oracle; the empty check,
the numeric fast path, and the URL-then-body pattern scan follow the
source order exactly. -/
def resolveChannelIdentifierToID (net : NetResult) (channelIdentifier : List Char) :
    Except ResolveError (List Char) :=
  if channelIdentifier = [] then .error .emptyIdentifier
  else if isNumericStr channelIdentifier then .ok channelIdentifier
  else
    match net with
    | .requestErr => .error .requestBuildError
    | .transportErr => .error .transportError
    | .response finalURL body =>
      match findChannelsMatch finalURL with
      | some digits => .ok digits
      | none =>
        match body with
        | none => .error .bodyReadError
        | some bodyText =>
          match findChannelsMatch bodyText with
          | some digits => .ok digits
          | none => .error (.resolutionFailed channelIdentifier)

example : resolveChannelIdentifierToID .transportErr "12345".toList = .ok "12345".toList := by rfl
example : resolveChannelIdentifierToID (.response "https://x/channels/42".toList (some [])) "abc".toList = .ok "42".toList := by rfl
example : resolveChannelIdentifierToID (.response "x".toList (some "y".toList)) "abc".toList = .error (.resolutionFailed "abc".toList) := by rfl

/-- Metadata of one discovered emote, embedding the Go struct `EmoteData`
(src/twe-dlp.go lines 32-36). -/
structure EmoteData where
  baseURL : List Char
  formatType : List Char
  emoteCode : List Char
  deriving DecidableEq

/-- Embeds Go `strings.Split(s, "/")`: segments between slashes, with
empty segments preserved; the split of the empty string is one empty
segment. -/
def splitSlash : List Char → List (List Char)
  | [] => [[]]
  | c :: rest =>
    if c = '/' then [] :: splitSlash rest
    else
      match splitSlash rest with
      | [] => [[c]]
      | seg :: segs => (c :: seg) :: segs

/-- Embeds Go `strings.Join(parts, "/")`. -/
def joinSlash : List (List Char) → List Char
  | [] => []
  | [seg] => seg
  | seg :: rest => seg ++ '/' :: joinSlash rest

example : splitSlash "a//b".toList = ["a".toList, [], "b".toList] := by decide
example : joinSlash ["a".toList, [], "b".toList] = "a//b".toList := by decide

/-- The URL segment literal `"emoticons"` searched for by the scraper. -/
def emoticonsLit : List Char := "emoticons".toList

/-- Embeds the index-finding loop of `collectEmoteMetadata`
(src/twe-dlp.go lines 201-207): the index of the first segment equal to
`"emoticons"`, or `none` in place of the Go sentinel `-1`. -/
def findEmoticonsIndex : List (List Char) → Option Nat
  | [] => none
  | seg :: rest =>
    if seg = emoticonsLit then some 0
    else (findEmoticonsIndex rest).map (fun i => i + 1)

/-- Embeds the positional URL-segment parsing of `collectEmoteMetadata`
(src/twe-dlp.go lines 200-217) applied to the absolute image URL: split
on slashes, find the first `"emoticons"` segment, require at least three
further segments, and read off the emote identifier (two after), the
format type (three after), and the base URL (the join of everything up
to and including the format-type segment). -/
def parseEmoteURL (fullImageSource : List Char) :
    Option (List Char × List Char × List Char) :=
  let pathParts := splitSlash fullImageSource
  match findEmoticonsIndex pathParts with
  | none => none
  | some i =>
    if pathParts.length ≤ i + 3 then none
    else
      some (pathParts.getD (i + 2) [], pathParts.getD (i + 3) [],
        joinSlash (pathParts.take (i + 4)))

example : parseEmoteURL "https://static-cdn.jtvnw.net/emoticons/v2/999/default/1.0".toList =
    some ("999".toList, "default".toList,
      "https://static-cdn.jtvnw.net/emoticons/v2/999/default".toList) := by decide
example : parseEmoteURL "https://static-cdn.jtvnw.net/emoticons/v2/999".toList = none := by decide

/-- Helper for `stripTags`: given the characters after a `<`, return the
characters after the first `>` provided no newline intervenes (Go's `.`
does not match a newline), else `none`. -/
def findTagEnd : List Char → Option (List Char)
  | [] => none
  | c :: rest =>
    if c = '>' then some rest
    else if c = '\n' then none
    else findTagEnd rest

/-- Recursion core of `stripTags`.  The fuel argument only bounds the
recursion depth structurally; one unit per emitted or deleted region
suffices, so fuel equal to the input length never runs out. -/
def stripTagsFuel : Nat → List Char → List Char
  | 0, l => l
  | _ + 1, [] => []
  | fuel + 1, c :: rest =>
    if c = '<' then
      match findTagEnd rest with
      | some rest2 => stripTagsFuel fuel rest2
      | none => c :: stripTagsFuel fuel rest
    else c :: stripTagsFuel fuel rest

/-- Embeds `htmlTagPattern.ReplaceAllString(s, "")` for the Go pattern
`<.*?>`: each leftmost non-greedy match, a `<` up to the nearest
following `>` with no newline in between, is deleted; a `<` with no such
`>` is kept. -/
def stripTags (l : List Char) : List Char :=
  stripTagsFuel l.length l

example : stripTags "<b>Kappa</b> x".toList = "Kappa x".toList := by decide
example : stripTags "a<b".toList = "a<b".toList := by decide
example : stripTags "<a\nb>c".toList = "<a\nb>c".toList := by decide

/-- Embeds the emote-code selection of `collectEmoteMetadata`
(src/twe-dlp.go lines 219-234).  `dataRegex`/`dataTooltip` are the
`data-regex`/`data-tooltip` attributes (`none` when absent; Go's `Attr`
then yields the empty string).  Mirrors the Go control flow: the
tooltip path only runs when `data-regex` is absent or blank, and the
parent-text/identifier fallback only when the accumulated code is the
empty string. -/
def computeEmoteCode (dataRegex dataTooltip : Option (List Char))
    (parentText emoteIdentifier : List Char) : List Char :=
  let ec0 := dataRegex.getD []
  let ec1 :=
    if dataRegex = none ∨ trimSpace ec0 = [] then
      match dataTooltip with
      | some tooltipHTML =>
        if trimSpace tooltipHTML ≠ [] then trimSpace (stripTags tooltipHTML)
        else ec0
      | none => ec0
    else ec0
  if ec1 = [] then
    if trimSpace parentText ≠ [] then trimSpace parentText else emoteIdentifier
  else ec1

example : computeEmoteCode (some "PogChamp".toList) none "x".toList "999".toList = "PogChamp".toList := by decide
example : computeEmoteCode none (some "<b>Kappa</b>".toList) "x".toList "999".toList = "Kappa".toList := by decide
example : computeEmoteCode none none " Pog ".toList "999".toList = "Pog".toList := by decide
example : computeEmoteCode none none "  ".toList "999".toList = "999".toList := by decide
example : computeEmoteCode (some [' ']) none "Pog".toList "999".toList = [' '] := by decide

/-- One `img` element of the scraped page, as seen by
`collectEmoteMetadata`: its `src`, `data-regex` and `data-tooltip`
attributes (`none` when absent) and the text content of its parent
element.  A document is the list of its `img` elements in traversal
order. -/
structure ImgElement where
  src : Option (List Char)
  dataRegex : Option (List Char)
  dataTooltip : Option (List Char)
  parentText : List Char
  deriving DecidableEq

/-- The fixed CDN path marker recognising genuine emote images. -/
def cdnMarker : List Char := "static-cdn.jtvnw.net/emoticons/v2/".toList

/-- Embeds the `strings.HasPrefix(s, "http://") / (s, "https://")` test
of `collectEmoteMetadata` (src/twe-dlp.go line 192). -/
def startsHTTP (s : List Char) : Bool :=
  leadsWith "http://".toList s || leadsWith "https://".toList s

/-- Embeds the per-image body of `collectEmoteMetadata`
(src/twe-dlp.go lines 182-234), up to but excluding the duplicate check:
yields the emote identifier and its `EmoteData`, or `none` when the
image is skipped.  `resolveRel` abstracts `resolveRelativeURL` (Go
`net/url` reference resolution against the catalog base URL), applied
only when the source is not already absolute; `none` models a parse
error, upon which the image is skipped. -/
def processImage (resolveRel : List Char → Option (List Char)) (img : ImgElement) :
    Option (List Char × EmoteData) :=
  match img.src with
  | none => none
  | some imageSource =>
    if imageSource = [] then none
    else if ¬ containsSub imageSource cdnMarker then none
    else
      let fullOpt := if startsHTTP imageSource then some imageSource
        else resolveRel imageSource
      match fullOpt with
      | none => none
      | some fullImageSource =>
        match parseEmoteURL fullImageSource with
        | none => none
        | some (emoteIdentifier, formatType, baseURL) =>
          let emoteCode := computeEmoteCode img.dataRegex img.dataTooltip
            img.parentText emoteIdentifier
          some (emoteIdentifier,
            { baseURL := baseURL, formatType := formatType, emoteCode := emoteCode })

/-- First-match association-list lookup; the Go `emoteMap` is modelled
as an association list in insertion order, whose lookup function is the
content of the map. -/
def lookupKey (k : List Char) : List (List Char × EmoteData) → Option EmoteData
  | [] => none
  | kv :: rest => if kv.1 = k then some kv.2 else lookupKey k rest

/-- The `Each` loop of `collectEmoteMetadata` (src/twe-dlp.go
lines 181-245) with its accumulated map made explicit: a skipped image
or an already-present identifier leaves the map unchanged; otherwise the
new record is appended. -/
def collectGo (resolveRel : List Char → Option (List Char))
    (acc : List (List Char × EmoteData)) :
    List ImgElement → List (List Char × EmoteData)
  | [] => acc
  | img :: rest =>
    match processImage resolveRel img with
    | none => collectGo resolveRel acc rest
    | some kv =>
      if (lookupKey kv.1 acc).isSome then collectGo resolveRel acc rest
      else collectGo resolveRel (acc ++ [kv]) rest

/-- Embeds `collectEmoteMetadata` (src/twe-dlp.go lines 178-248): fold
the per-image processing over the document's images starting from the
empty map. -/
def collectEmoteMetadata (resolveRel : List Char → Option (List Char))
    (imgs : List ImgElement) : List (List Char × EmoteData) :=
  collectGo resolveRel [] imgs

/-- The record of the first image, in document traversal order, that
processes successfully to the given identifier.  This is the
specification-level description of first-seen-wins de-duplication. -/
def firstProcessed (resolveRel : List Char → Option (List Char))
    (imgs : List ImgElement) (id : List Char) : Option EmoteData :=
  ((imgs.filterMap (processImage resolveRel)).find?
    (fun kv => decide (kv.1 = id))).map (fun kv => kv.2)

/-- Embeds Go `unicode.ToLower` (the Unicode simple case mapping) on
the code points whose lowercase form is ASCII: A-Z (65..90) map to a-z
by adding 32, U+0130 (Latin capital letter I with dot above, 304) maps
to ASCII i (105), and U+212A (Kelvin sign, 8490) maps to ASCII k (107).
These are the only code points the simple case mapping sends into
ASCII; every other code point is kept unchanged here, and since under
the full mapping all remaining non-ASCII code points lower to non-ASCII
code points, the ASCII-only substring tests of `determineFileExtension`
give the same answer over this mapping as over the full one — the
classification computed from it coincides with the program's on every
string. -/
def lowerChar (c : Char) : Char :=
  if 65 ≤ c.toNat ∧ c.toNat ≤ 90 then Char.ofNat (c.toNat + 32)
  else if c.toNat = 304 then Char.ofNat 105
  else if c.toNat = 8490 then Char.ofNat 107
  else c

/-- Character-wise lowering of a whole string, embedding
`strings.ToLower` as applied by `determineFileExtension`. -/
def goToLower (l : List Char) : List Char :=
  l.map lowerChar

example : goToLower "IMAGE/Gif".toList = "image/gif".toList := by decide
example : goToLower "GİF".toList = "gif".toList := by decide

/-- Embeds `determineFileExtension` (src/twe-dlp.go lines 250-262):
lower-case the declared content type, then test substring containment
for gif, jpeg/jpg, png in that priority order, with fallback `img`. -/
def determineFileExtension (contentType : List Char) : List Char :=
  let ct := goToLower contentType
  if containsSub ct "gif".toList then "gif".toList
  else if containsSub ct "jpeg".toList || containsSub ct "jpg".toList then "jpg".toList
  else if containsSub ct "png".toList then "png".toList
  else "img".toList

example : determineFileExtension "image/gif".toList = "gif".toList := by decide
example : determineFileExtension "IMAGE/GIF".toList = "gif".toList := by decide
example : determineFileExtension "application/octet-stream".toList = "img".toList := by decide

/-- The fixed ordered size list `emoteSizeList = ["1.0", "2.0", "3.0"]`. -/
def emoteSizeList : List (List Char) :=
  ["1.0".toList, "2.0".toList, "3.0".toList]

/-- Environment oracle for one size fetch of the downloader: whether the
request could be built, whether the transport succeeded, the response
status code and status line, the declared content type, and whether file
creation and body copying succeed. -/
structure SizeFetchEnv where
  requestOk : Bool
  transportOk : Bool
  statusCode : Nat
  status : List Char
  contentType : List Char
  createOk : Bool
  copyOk : Bool
  deriving DecidableEq

/-- The per-line observable output of the download stage, one
constructor per `Printf` of `downloadEmoteImages` with its arguments. -/
inductive DownloadLog where
  | errorFolder (emoteFolder : List Char)
  | skipRequest (imageURL : List Char)
  | skipTransport (imageURL : List Char)
  | skipStatus (imageURL status : List Char)
  | skipCreate (outputPath : List Char)
  | skipCopy (outputPath : List Char)
  | okFile (outputFilename : List Char)
  deriving DecidableEq

/-- Embeds one iteration of the size loop of `downloadEmoteImages`
(src/twe-dlp.go lines 276-320): build the asset URL, then walk the
failure ladder — request construction, transport, HTTP status, file
creation, body copy — logging a skip at the first failure, or the
success line.  Every branch of the Go loop body ends in `continue` or
falls through, so one iteration always produces exactly one line. -/
def attemptSizeDownload (safeEmoteCode emoteFolder baseURL sizeValue : List Char)
    (env : SizeFetchEnv) : DownloadLog :=
  let imageURL := baseURL ++ "/light/".toList ++ sizeValue
  if ¬ env.requestOk then .skipRequest imageURL
  else if ¬ env.transportOk then .skipTransport imageURL
  else if env.statusCode ≠ 200 then .skipStatus imageURL env.status
  else
    let fileExtension := determineFileExtension env.contentType
    let outputFilename := safeEmoteCode ++ '_' :: sizeValue ++ '.' :: fileExtension
    let outputPath := emoteFolder ++ '/' :: outputFilename
    if ¬ env.createOk then .skipCreate outputPath
    else if ¬ env.copyOk then .skipCopy outputPath
    else .okFile outputFilename

/-- The size loop of `downloadEmoteImages`, one log line per size. -/
def downloadSizesLoop (safeEmoteCode emoteFolder baseURL : List Char)
    (env : List Char → SizeFetchEnv) : List (List Char) → List DownloadLog
  | [] => []
  | sizeValue :: rest =>
    attemptSizeDownload safeEmoteCode emoteFolder baseURL sizeValue (env sizeValue) ::
      downloadSizesLoop safeEmoteCode emoteFolder baseURL env rest

/-- Embeds `downloadEmoteImages` (src/twe-dlp.go lines 264-321):
sanitize the emote code, form the emote folder (`filepath.Join` of the
output root and the safe code), and either fail the whole emote when
the folder cannot be created (`mkdirOk = false`) or run the size loop
over the fixed size list.  Filesystem and network outcomes are supplied
by the oracles. -/
def downloadEmoteImages (emoteData : EmoteData) (outputRoot : List Char)
    (mkdirOk : Bool) (env : List Char → SizeFetchEnv) : List DownloadLog :=
  let safeEmoteCode := makeSafeName emoteData.emoteCode
  let emoteFolder := outputRoot ++ '/' :: safeEmoteCode
  if ¬ mkdirOk then [.errorFolder emoteFolder]
  else downloadSizesLoop safeEmoteCode emoteFolder emoteData.baseURL env emoteSizeList

/-- Embeds the per-record download loop of `downloadChannelEmotes`
(src/twe-dlp.go lines 362-365): each record of the scrape result is
processed by `downloadEmoteImages`, with its own filesystem and network
oracles selected by its identifier. -/
def downloadAllEmotes (records : List (List Char × EmoteData)) (outputRoot : List Char)
    (mkdirOk : List Char → Bool) (env : List Char → List Char → SizeFetchEnv) :
    List (List DownloadLog) :=
  records.map (fun kv => downloadEmoteImages kv.2 outputRoot (mkdirOk kv.1) (env kv.1))

/-- Specification-level substring relation: `t` occurs contiguously
inside `s`. -/
def HasSub (s t : List Char) : Prop :=
  ∃ pre post, s = pre ++ t ++ post

/-- Specification-level statement that the pattern `/channels/(\d+)`
matches somewhere in `s`: the literal occurs followed by at least one
decimal digit. -/
def HasChanMatch (s : List Char) : Prop :=
  ∃ pre d post, s = pre ++ chanLit ++ d :: post ∧ isDigitChar d = true

/-- Specification-level statement that `d` is the capture of the first
(leftmost) match of `/channels/(\d+)` in `s`: `d` is a non-empty digit
run right after an occurrence of the literal, maximal (the next
character is not a digit), and no occurrence of the literal followed by
a digit starts earlier. -/
def FirstMatchDigits (s d : List Char) : Prop :=
  ∃ pre post, s = pre ++ chanLit ++ d ++ post ∧ d ≠ [] ∧
    (∀ c ∈ d, isDigitChar c = true) ∧
    (∀ c, post.head? = some c → isDigitChar c = false) ∧
    (∀ pre2 (d2 : Char) post2, s = pre2 ++ chanLit ++ d2 :: post2 →
      isDigitChar d2 = true → pre.length ≤ pre2.length)

/-- Modelled from the words of claim C2: the emote code is the
`data-regex` value if non-blank after trimming; else the `data-tooltip`
value with tags stripped and trimmed, if non-blank; else the trimmed
parent text, if non-blank; else the emote identifier. -/
def emoteCodeClaimed (dataRegex dataTooltip : Option (List Char))
    (parentText emoteIdentifier : List Char) : List Char :=
  if trimSpace (dataRegex.getD []) ≠ [] then dataRegex.getD []
  else if trimSpace (stripTags (dataTooltip.getD [])) ≠ [] then
    trimSpace (stripTags (dataTooltip.getD []))
  else if trimSpace parentText ≠ [] then trimSpace parentText
  else emoteIdentifier

/-- The amended emote-code rule actually implemented: choose the raw
`data-regex` value when it is non-blank after trimming; otherwise the
stripped-and-trimmed tooltip when the raw tooltip is non-blank;
otherwise keep the raw `data-regex` value (possibly whitespace).  Only
when the chosen value is the empty string fall back to the trimmed
parent text, and finally to the identifier. -/
def emoteCodeAmended (dataRegex dataTooltip : Option (List Char))
    (parentText emoteIdentifier : List Char) : List Char :=
  let chosen :=
    if trimSpace (dataRegex.getD []) ≠ [] then dataRegex.getD []
    else if trimSpace (dataTooltip.getD []) ≠ [] then
      trimSpace (stripTags (dataTooltip.getD []))
    else dataRegex.getD []
  if chosen = [] then
    if trimSpace parentText ≠ [] then trimSpace parentText else emoteIdentifier
  else chosen

namespace Tui

/-- Embeds `makeSafeName` of the TUI variant (src/unnamed/part_000
lines 70-80), translated independently from that file. -/
def makeSafeName (name : List Char) : List Char :=
  let trimmed := trimSpace name
  if trimmed = [] then unknownName
  else
    let safe := replaceRuns trimmed
    if safe = [] then unknownName else safe

/-- Embeds the numeric-identifier loop of the TUI variant's
`resolveChannelIdentifierToID` (src/unnamed/part_000 lines 97-103). -/
def isNumericStr (l : List Char) : Bool :=
  l.all isDigitChar

/-- Embeds `resolveChannelIdentifierToID` of the TUI variant
(src/unnamed/part_000 lines 92-143), over the same network oracle. -/
def resolveChannelIdentifierToID (net : NetResult) (channelIdentifier : List Char) :
    Except ResolveError (List Char) :=
  if channelIdentifier = [] then .error .emptyIdentifier
  else if isNumericStr channelIdentifier then .ok channelIdentifier
  else
    match net with
    | .requestErr => .error .requestBuildError
    | .transportErr => .error .transportError
    | .response finalURL body =>
      match findChannelsMatch finalURL with
      | some digits => .ok digits
      | none =>
        match body with
        | none => .error .bodyReadError
        | some bodyText =>
          match findChannelsMatch bodyText with
          | some digits => .ok digits
          | none => .error (.resolutionFailed channelIdentifier)

/-- Embeds the index-finding loop of the TUI variant's
`collectEmoteMetadata` (src/unnamed/part_000 lines 227-233). -/
def findEmoticonsIndex : List (List Char) → Option Nat
  | [] => none
  | seg :: rest =>
    if seg = emoticonsLit then some 0
    else (findEmoticonsIndex rest).map (fun i => i + 1)

/-- Embeds the positional URL-segment parsing of the TUI variant's
`collectEmoteMetadata` (src/unnamed/part_000 lines 226-243). -/
def parseEmoteURL (fullImageSource : List Char) :
    Option (List Char × List Char × List Char) :=
  let pathParts := splitSlash fullImageSource
  match findEmoticonsIndex pathParts with
  | none => none
  | some i =>
    if pathParts.length ≤ i + 3 then none
    else
      some (pathParts.getD (i + 2) [], pathParts.getD (i + 3) [],
        joinSlash (pathParts.take (i + 4)))

/-- Embeds the emote-code selection of the TUI variant's
`collectEmoteMetadata` (src/unnamed/part_000 lines 245-260). -/
def computeEmoteCode (dataRegex dataTooltip : Option (List Char))
    (parentText emoteIdentifier : List Char) : List Char :=
  let ec0 := dataRegex.getD []
  let ec1 :=
    if dataRegex = none ∨ trimSpace ec0 = [] then
      match dataTooltip with
      | some tooltipHTML =>
        if trimSpace tooltipHTML ≠ [] then trimSpace (stripTags tooltipHTML)
        else ec0
      | none => ec0
    else ec0
  if ec1 = [] then
    if trimSpace parentText ≠ [] then trimSpace parentText else emoteIdentifier
  else ec1

/-- Embeds the per-image body of the TUI variant's
`collectEmoteMetadata` (src/unnamed/part_000 lines 207-260). -/
def processImage (resolveRel : List Char → Option (List Char)) (img : ImgElement) :
    Option (List Char × EmoteData) :=
  match img.src with
  | none => none
  | some imageSource =>
    if imageSource = [] then none
    else if ¬ containsSub imageSource cdnMarker then none
    else
      let fullOpt := if startsHTTP imageSource then some imageSource
        else resolveRel imageSource
      match fullOpt with
      | none => none
      | some fullImageSource =>
        match parseEmoteURL fullImageSource with
        | none => none
        | some (emoteIdentifier, formatType, baseURL) =>
          let emoteCode := computeEmoteCode img.dataRegex img.dataTooltip
            img.parentText emoteIdentifier
          some (emoteIdentifier,
            { baseURL := baseURL, formatType := formatType, emoteCode := emoteCode })

/-- The `Each` loop of the TUI variant's `collectEmoteMetadata`
(src/unnamed/part_000 lines 207-271), accumulated map explicit. -/
def collectGo (resolveRel : List Char → Option (List Char))
    (acc : List (List Char × EmoteData)) :
    List ImgElement → List (List Char × EmoteData)
  | [] => acc
  | img :: rest =>
    match processImage resolveRel img with
    | none => collectGo resolveRel acc rest
    | some kv =>
      if (lookupKey kv.1 acc).isSome then collectGo resolveRel acc rest
      else collectGo resolveRel (acc ++ [kv]) rest

/-- Embeds `collectEmoteMetadata` of the TUI variant
(src/unnamed/part_000 lines 204-274). -/
def collectEmoteMetadata (resolveRel : List Char → Option (List Char))
    (imgs : List ImgElement) : List (List Char × EmoteData) :=
  collectGo resolveRel [] imgs

/-- Embeds `determineFileExtension` of the TUI variant
(src/unnamed/part_000 lines 276-288). -/
def determineFileExtension (contentType : List Char) : List Char :=
  let ct := goToLower contentType
  if containsSub ct "gif".toList then "gif".toList
  else if containsSub ct "jpeg".toList || containsSub ct "jpg".toList then "jpg".toList
  else if containsSub ct "png".toList then "png".toList
  else "img".toList

end Tui

theorem replaceRuns_skipRun_safe : ∀ l : List Char,
    (∀ c ∈ replaceRuns l, isSafeChar c = true) ∧
    (∀ c ∈ skipRun l, isSafeChar c = true) := by
  intro l
  induction l with
  | nil => constructor <;> simp [replaceRuns, skipRun]
  | cons a rest ih =>
    constructor
    · intro c hc
      by_cases ha : isSafeChar a
      · simp [replaceRuns, ha] at hc
        rcases hc with rfl | hc
        · exact ha
        · exact ih.1 c hc
      · simp [replaceRuns, ha] at hc
        rcases hc with rfl | hc
        · decide
        · exact ih.2 c hc
    · intro c hc
      by_cases ha : isSafeChar a
      · simp [skipRun, ha] at hc
        rcases hc with rfl | hc
        · exact ha
        · exact ih.1 c hc
      · simp [skipRun, ha] at hc
        exact ih.2 c hc

theorem replaceRuns_eq_self : ∀ l : List Char,
    (∀ c ∈ l, isSafeChar c = true) → replaceRuns l = l := by
  intro l
  induction l with
  | nil => intro _; simp [replaceRuns]
  | cons a rest ih =>
    intro h
    have ha : isSafeChar a = true := h a (by simp)
    simp [replaceRuns, ha]
    exact ih (fun c hc => h c (by simp [hc]))

theorem skipRun_eq_nil : ∀ l : List Char,
    (∀ c ∈ l, isSafeChar c = false) → skipRun l = [] := by
  intro l
  induction l with
  | nil => intro _; simp [skipRun]
  | cons a rest ih =>
    intro h
    have ha : isSafeChar a = false := h a (by simp)
    simp [skipRun, ha]
    exact ih (fun c hc => h c (by simp [hc]))

theorem safeChar_not_space (c : Char) (h : isSafeChar c = true) :
    isGoSpace c = false := by
  simp [isSafeChar] at h
  simp [isGoSpace]
  omega

theorem dropWhile_eq_self_of_all {p : Char → Bool} : ∀ l : List Char,
    (∀ c ∈ l, p c = false) → l.dropWhile p = l := by
  intro l h
  cases l with
  | nil => rfl
  | cons a rest =>
    have ha : p a = false := h a (by simp)
    simp [List.dropWhile, ha]

theorem trimSpace_eq_self : ∀ l : List Char,
    (∀ c ∈ l, isGoSpace c = false) → trimSpace l = l := by
  intro l h
  unfold trimSpace
  rw [dropWhile_eq_self_of_all l h]
  rw [dropWhile_eq_self_of_all l.reverse (fun c hc => h c (List.mem_reverse.mp hc))]
  exact List.reverse_reverse l

theorem mem_trimSpace : ∀ (l : List Char) (c : Char), c ∈ trimSpace l → c ∈ l := by
  intro l c h
  unfold trimSpace at h
  have h1 := List.mem_reverse.mp h
  have h2 := (List.dropWhile_sublist (l := (l.dropWhile isGoSpace).reverse)
    (p := isGoSpace)).mem h1
  have h3 := List.mem_reverse.mp h2
  exact (List.dropWhile_sublist (l := l) (p := isGoSpace)).mem h3

theorem makeSafeName_unknown_fixed : makeSafeName unknownName = unknownName := by decide

/-- Claim C1 fails on the code: the input `"-"` consists only of
characters outside `[A-Za-z0-9_]`, yet `makeSafeName` returns `"_"`,
not `"unknown"` (the run of disallowed characters is collapsed to one
underscore, which is non-empty). -/
theorem claim1_counterexample :
    (∀ c ∈ ['-'], isSafeChar c = false) ∧ makeSafeName ['-'] ≠ unknownName := by
  decide

/-- Claim C1 (amended): sanitization of the empty string yields
`"unknown"`; sanitization of any string that trims to empty (only
whitespace) yields `"unknown"`; and sanitization of any non-blank
string consisting only of disallowed characters yields the single
underscore `"_"`, not `"unknown"`. -/
theorem claim1_amended_sanitize :
    (makeSafeName [] = unknownName) ∧
    (∀ s : List Char, trimSpace s = [] → makeSafeName s = unknownName) ∧
    (∀ s : List Char, (∀ c ∈ s, isSafeChar c = false) → trimSpace s ≠ [] →
      makeSafeName s = ['_']) := by
  refine ⟨by decide, ?_, ?_⟩
  · intro s h
    simp [makeSafeName, h]
  · intro s hall hne
    have htrim : ∀ c ∈ trimSpace s, isSafeChar c = false :=
      fun c hc => hall c (mem_trimSpace s c hc)
    cases hts : trimSpace s with
    | nil => exact absurd hts hne
    | cons a rest =>
      have ha : isSafeChar a = false := htrim a (by rw [hts]; simp)
      have hrest : skipRun rest = [] := by
        apply skipRun_eq_nil
        intro c hc
        exact htrim c (by rw [hts]; simp [hc])
      have hrep : replaceRuns (trimSpace s) = ['_'] := by
        rw [hts]
        simp [replaceRuns, ha, hrest]
      simp [makeSafeName, hts] at hrep ⊢
      simp [hrep]

/-- Witness for claim C1 (amended) at concrete inputs: the whitespace
string sanitizes to `"unknown"`, the all-disallowed string `"-"` to
`"_"`. -/
theorem claim1_amended_witness :
    makeSafeName "  ".toList = unknownName ∧ makeSafeName ['-'] = ['_'] :=
  ⟨claim1_amended_sanitize.2.1 "  ".toList (by decide),
   claim1_amended_sanitize.2.2 ['-'] (by decide) (by decide)⟩

/-- Claim C9: `makeSafeName` is idempotent — sanitizing an
already-sanitized name returns it unchanged. -/
theorem claim9_makeSafeName_idempotent :
    ∀ s : List Char, makeSafeName (makeSafeName s) = makeSafeName s := by
  intro s
  by_cases h1 : trimSpace s = []
  · rw [show makeSafeName s = unknownName by simp [makeSafeName, h1]]
    exact makeSafeName_unknown_fixed
  · by_cases h2 : replaceRuns (trimSpace s) = []
    · rw [show makeSafeName s = unknownName by simp [makeSafeName, h1, h2]]
      exact makeSafeName_unknown_fixed
    · have hval : makeSafeName s = replaceRuns (trimSpace s) := by
        simp [makeSafeName, h1, h2]
      have hsafe : ∀ c ∈ replaceRuns (trimSpace s), isSafeChar c = true :=
        (replaceRuns_skipRun_safe (trimSpace s)).1
      have hnospace : ∀ c ∈ replaceRuns (trimSpace s), isGoSpace c = false :=
        fun c hc => safeChar_not_space c (hsafe c hc)
      have htrim : trimSpace (replaceRuns (trimSpace s)) = replaceRuns (trimSpace s) :=
        trimSpace_eq_self _ hnospace
      have hrep : replaceRuns (replaceRuns (trimSpace s)) = replaceRuns (trimSpace s) :=
        replaceRuns_eq_self _ hsafe
      rw [hval]
      simp [makeSafeName, htrim, hrep, h2]

/-- Claim C3: for a non-empty identifier consisting solely of decimal
digits, resolution returns exactly the identifier, for every possible
network oracle — in particular without depending on any network
interaction. -/
theorem claim3_numeric_identity :
    ∀ (net : NetResult) (s : List Char), s ≠ [] → (∀ c ∈ s, isDigitChar c = true) →
      resolveChannelIdentifierToID net s = .ok s := by
  intro net s hne hdig
  have hnum : isNumericStr s = true := by
    simp [isNumericStr, List.all_eq_true]
    exact hdig
  simp [resolveChannelIdentifierToID, hne, hnum]

/-- Witness for claim C3: the all-digit identifier `"12345"` resolves to
itself even when the transport would fail. -/
theorem claim3_witness :
    resolveChannelIdentifierToID .transportErr "12345".toList = .ok "12345".toList :=
  claim3_numeric_identity .transportErr "12345".toList (by decide) (by decide)

theorem tui_findEmoticonsIndex_eq : ∀ parts : List (List Char),
    Tui.findEmoticonsIndex parts = findEmoticonsIndex parts := by
  intro parts
  induction parts with
  | nil => rfl
  | cons seg rest ih => simp [findEmoticonsIndex, Tui.findEmoticonsIndex, ih]

theorem tui_parseEmoteURL_eq : ∀ full : List Char,
    Tui.parseEmoteURL full = parseEmoteURL full := by
  intro full
  simp [parseEmoteURL, Tui.parseEmoteURL, tui_findEmoticonsIndex_eq]

theorem tui_processImage_eq :
    ∀ (rel : List Char → Option (List Char)) (img : ImgElement),
      Tui.processImage rel img = processImage rel img := by
  intro rel img
  simp [processImage, Tui.processImage, tui_parseEmoteURL_eq, Tui.computeEmoteCode,
    computeEmoteCode]

theorem tui_collectGo_eq :
    ∀ (rel : List Char → Option (List Char)) (imgs : List ImgElement)
      (acc : List (List Char × EmoteData)),
      Tui.collectGo rel acc imgs = collectGo rel acc imgs := by
  intro rel imgs
  induction imgs with
  | nil => intro acc; rfl
  | cons img rest ih =>
    intro acc
    simp [collectGo, Tui.collectGo, tui_processImage_eq, ih]

/-- Claim C10: the four core pipeline functions of the CLI variant
(src/twe-dlp.go) and of the TUI variant (src/unnamed/part_000) are
extensionally equal — both source files contain the same pipeline. -/
theorem claim10_variant_equivalence :
    (∀ s : List Char, makeSafeName s = Tui.makeSafeName s) ∧
    (∀ (net : NetResult) (id : List Char),
      resolveChannelIdentifierToID net id = Tui.resolveChannelIdentifierToID net id) ∧
    (∀ (rel : List Char → Option (List Char)) (imgs : List ImgElement),
      collectEmoteMetadata rel imgs = Tui.collectEmoteMetadata rel imgs) ∧
    (∀ ct : List Char, determineFileExtension ct = Tui.determineFileExtension ct) := by
  refine ⟨fun s => rfl, fun net id => rfl, fun rel imgs => ?_, fun ct => rfl⟩
  rw [collectEmoteMetadata, Tui.collectEmoteMetadata, tui_collectGo_eq]

theorem lookupKey_append_of_some :
    ∀ (acc rest : List (List Char × EmoteData)) (k : List Char) (d : EmoteData),
      lookupKey k acc = some d → lookupKey k (acc ++ rest) = some d := by
  intro acc rest k d h
  induction acc with
  | nil => simp [lookupKey] at h
  | cons kv tl ih =>
    by_cases hk : kv.1 = k
    · simp [lookupKey, hk] at h ⊢
      exact h
    · simp [lookupKey, hk] at h ⊢
      exact ih h

theorem lookupKey_append_of_none :
    ∀ (acc rest : List (List Char × EmoteData)) (k : List Char),
      lookupKey k acc = none → lookupKey k (acc ++ rest) = lookupKey k rest := by
  intro acc rest k h
  induction acc with
  | nil => simp
  | cons kv tl ih =>
    by_cases hk : kv.1 = k
    · simp [lookupKey, hk] at h
    · simp [lookupKey, hk] at h ⊢
      exact ih h

theorem lookupKey_none_iff :
    ∀ (acc : List (List Char × EmoteData)) (k : List Char),
      lookupKey k acc = none ↔ k ∉ acc.map Prod.fst := by
  intro acc k
  induction acc with
  | nil => simp [lookupKey]
  | cons kv tl ih =>
    simp only [lookupKey, List.map_cons, List.mem_cons]
    by_cases hk : kv.1 = k
    · rw [if_pos hk]
      constructor
      · intro h
        exact absurd h (by simp)
      · intro h
        exact absurd (Or.inl hk.symm) h
    · rw [if_neg hk, ih]
      constructor
      · intro h hor
        rcases hor with heq | hmem
        · exact hk heq.symm
        · exact h hmem
      · intro h hmem
        exact h (Or.inr hmem)

theorem firstProcessed_cons_none (rel : List Char → Option (List Char))
    (img : ImgElement) (rest : List ImgElement) (id : List Char)
    (h : processImage rel img = none) :
    firstProcessed rel (img :: rest) id = firstProcessed rel rest id := by
  simp [firstProcessed, List.filterMap_cons, h]

theorem firstProcessed_cons_some (rel : List Char → Option (List Char))
    (img : ImgElement) (rest : List ImgElement) (id : List Char)
    (kv : List Char × EmoteData) (h : processImage rel img = some kv) :
    firstProcessed rel (img :: rest) id =
      if kv.1 = id then some kv.2 else firstProcessed rel rest id := by
  unfold firstProcessed
  rw [List.filterMap_cons, h]
  by_cases hk : kv.1 = id
  · rw [List.find?_cons_of_pos _ (by simp [hk]), if_pos hk]
    rfl
  · rw [List.find?_cons_of_neg _ (by simp [hk]), if_neg hk]

theorem collectGo_lookup_some :
    ∀ (rel : List Char → Option (List Char)) (imgs : List ImgElement)
      (acc : List (List Char × EmoteData)) (id : List Char) (d : EmoteData),
      lookupKey id acc = some d → lookupKey id (collectGo rel acc imgs) = some d := by
  intro rel imgs
  induction imgs with
  | nil => intro acc id d h; simpa [collectGo] using h
  | cons img rest ih =>
    intro acc id d h
    cases hpi : processImage rel img with
    | none => simp [collectGo, hpi]; exact ih acc id d h
    | some kv =>
      by_cases hmem : (lookupKey kv.1 acc).isSome
      · simp [collectGo, hpi, hmem]
        exact ih acc id d h
      · simp [collectGo, hpi, hmem]
        exact ih (acc ++ [kv]) id d (lookupKey_append_of_some acc [kv] id d h)

theorem collectGo_lookup_none :
    ∀ (rel : List Char → Option (List Char)) (imgs : List ImgElement)
      (acc : List (List Char × EmoteData)) (id : List Char),
      lookupKey id acc = none →
      lookupKey id (collectGo rel acc imgs) = firstProcessed rel imgs id := by
  intro rel imgs
  induction imgs with
  | nil => intro acc id h; simpa [collectGo, firstProcessed] using h
  | cons img rest ih =>
    intro acc id h
    cases hpi : processImage rel img with
    | none =>
      rw [firstProcessed_cons_none rel img rest id hpi]
      simp [collectGo, hpi]
      exact ih acc id h
    | some kv =>
      rw [firstProcessed_cons_some rel img rest id kv hpi]
      by_cases hmem : (lookupKey kv.1 acc).isSome
      · have hkne : kv.1 ≠ id := by
          intro heq
          rw [heq, h] at hmem
          simp at hmem
        simp [collectGo, hpi, hmem, hkne]
        exact ih acc id h
      · have hstep : collectGo rel acc (img :: rest) = collectGo rel (acc ++ [kv]) rest := by
          simp [collectGo, hpi, hmem]
        rw [hstep]
        by_cases hk : kv.1 = id
        · have h1 : lookupKey id (acc ++ [kv]) = some kv.2 := by
            rw [lookupKey_append_of_none acc [kv] id h]
            simp [lookupKey, hk]
          rw [if_pos hk]
          exact collectGo_lookup_some rel rest (acc ++ [kv]) id kv.2 h1
        · have h1 : lookupKey id (acc ++ [kv]) = none := by
            rw [lookupKey_append_of_none acc [kv] id h]
            simp [lookupKey, hk]
          rw [if_neg hk]
          exact ih (acc ++ [kv]) id h1

theorem nodup_append_singleton :
    ∀ (l : List (List Char)) (a : List Char), l.Nodup → a ∉ l → (l ++ [a]).Nodup := by
  intro l a hnd hna
  rw [List.nodup_append]
  refine ⟨hnd, List.nodup_singleton a, ?_⟩
  intro x hx hxa
  rw [List.mem_singleton] at hxa
  exact hna (hxa ▸ hx)

theorem collectGo_keys_nodup :
    ∀ (rel : List Char → Option (List Char)) (imgs : List ImgElement)
      (acc : List (List Char × EmoteData)),
      (acc.map Prod.fst).Nodup → ((collectGo rel acc imgs).map Prod.fst).Nodup := by
  intro rel imgs
  induction imgs with
  | nil => intro acc h; simpa [collectGo] using h
  | cons img rest ih =>
    intro acc h
    cases hpi : processImage rel img with
    | none => simp [collectGo, hpi]; exact ih acc h
    | some kv =>
      by_cases hmem : (lookupKey kv.1 acc).isSome
      · simp [collectGo, hpi, hmem]
        exact ih acc h
      · simp [collectGo, hpi, hmem]
        apply ih (acc ++ [kv])
        have hnone : lookupKey kv.1 acc = none := by
          cases hl : lookupKey kv.1 acc with
          | none => rfl
          | some d => rw [hl] at hmem; simp at hmem
        have hnot : kv.1 ∉ acc.map Prod.fst := (lookupKey_none_iff acc kv.1).mp hnone
        rw [List.map_append]
        exact nodup_append_singleton (acc.map Prod.fst) kv.1 h hnot

/-- Claim C4: within one scraped document, each emote identifier occurs
at most once in the resulting mapping, and the record kept for an
identifier is the one produced by the first image element, in document
traversal order, that processes to that identifier; all later ones are
discarded. -/
theorem claim4_first_seen_wins :
    ∀ (rel : List Char → Option (List Char)) (imgs : List ImgElement) (id : List Char),
      ((collectEmoteMetadata rel imgs).map Prod.fst).Nodup ∧
      lookupKey id (collectEmoteMetadata rel imgs) = firstProcessed rel imgs id := by
  intro rel imgs id
  constructor
  · exact collectGo_keys_nodup rel imgs [] (by simp)
  · exact collectGo_lookup_none rel imgs [] id rfl

theorem findEmoticonsIndex_none : ∀ parts : List (List Char),
    (∀ seg ∈ parts, seg ≠ emoticonsLit) → findEmoticonsIndex parts = none := by
  intro parts h
  induction parts with
  | nil => rfl
  | cons seg rest ih =>
    have hs : seg ≠ emoticonsLit := h seg (by simp)
    simp [findEmoticonsIndex, hs]
    exact ih (fun s hsm => h s (by simp [hsm]))

theorem findEmoticonsIndex_first : ∀ (parts : List (List Char)) (j : Nat),
    j < parts.length → parts.getD j [] = emoticonsLit →
    (∀ k, k < j → parts.getD k [] ≠ emoticonsLit) →
    findEmoticonsIndex parts = some j := by
  intro parts
  induction parts with
  | nil => intro j hj _ _; simp at hj
  | cons seg rest ih =>
    intro j hj hje hmin
    by_cases hs : seg = emoticonsLit
    · cases j with
      | zero => simp [findEmoticonsIndex, hs]
      | succ j0 =>
        have h0 := hmin 0 (Nat.succ_pos j0)
        simp at h0
        exact absurd hs h0
    · cases j with
      | zero =>
        simp at hje
        exact absurd hje hs
      | succ j0 =>
        have h1 : j0 < rest.length := by simpa using hj
        have h2 : rest.getD j0 [] = emoticonsLit := by simpa using hje
        have h3 : ∀ k, k < j0 → rest.getD k [] ≠ emoticonsLit := by
          intro k hk
          have hm := hmin (k + 1) (by omega)
          simpa using hm
        simp [findEmoticonsIndex, hs, ih j0 h1 h2 h3]

theorem not_mem_take_getD : ∀ (parts : List (List Char)) (j k : Nat),
    emoticonsLit ∉ parts.take j → k < j → k < parts.length →
    parts.getD k [] ≠ emoticonsLit := by
  intro parts
  induction parts with
  | nil => intro j k _ _ hkl; simp at hkl
  | cons seg rest ih =>
    intro j k hnot hkj hkl heq
    cases j with
    | zero => omega
    | succ j0 =>
      rw [List.take_succ_cons] at hnot
      simp at hnot
      cases k with
      | zero =>
        simp at heq
        exact hnot.1 heq.symm
      | succ k0 =>
        rw [List.getD_cons_succ] at heq
        exact ih j0 k0 hnot.2 (by omega) (by simpa using hkl) heq

/-- Claim C5: splitting the absolute image URL on slashes, if no segment
is literally `"emoticons"`, or fewer than three segments follow the
first such segment, the parse is rejected; otherwise the emote
identifier is the segment two positions after it, the format type the
segment three positions after it, and the base URL the join of the
segments up to and including that one. -/
theorem claim5_url_segment_parsing :
    ∀ full : List Char,
      ((∀ seg ∈ splitSlash full, seg ≠ emoticonsLit) → parseEmoteURL full = none) ∧
      (∀ j, j < (splitSlash full).length → (splitSlash full).getD j [] = emoticonsLit →
        emoticonsLit ∉ (splitSlash full).take j →
        ((splitSlash full).length ≤ j + 3 → parseEmoteURL full = none) ∧
        (j + 3 < (splitSlash full).length →
          parseEmoteURL full = some ((splitSlash full).getD (j + 2) [],
            (splitSlash full).getD (j + 3) [],
            joinSlash ((splitSlash full).take (j + 4))))) := by
  intro full
  constructor
  · intro h
    simp [parseEmoteURL, findEmoticonsIndex_none (splitSlash full) h]
  · intro j hj hje hnot
    have hmin : ∀ k, k < j → (splitSlash full).getD k [] ≠ emoticonsLit :=
      fun k hk => not_mem_take_getD (splitSlash full) j k hnot hk (lt_trans hk hj)
    have hidx := findEmoticonsIndex_first (splitSlash full) j hj hje hmin
    constructor
    · intro hle
      simp [parseEmoteURL, hidx, hle]
    · intro hlt
      have hnle : ¬ ((splitSlash full).length ≤ j + 3) := by omega
      simp [parseEmoteURL, hidx, hnle]

/-- Witness for claim C5 at a concrete CDN image URL: the `"emoticons"`
segment sits at index 3 of the split, and the parse extracts identifier
`"999"`, format `"default"`, and the base URL up to `"default"`. -/
theorem claim5_witness :
    parseEmoteURL "https://static-cdn.jtvnw.net/emoticons/v2/999/default/1.0".toList =
      some ("999".toList, "default".toList,
        "https://static-cdn.jtvnw.net/emoticons/v2/999/default".toList) := by
  have h := ((claim5_url_segment_parsing
      "https://static-cdn.jtvnw.net/emoticons/v2/999/default/1.0".toList).2 3
      (by decide) (by decide) (by decide)).2 (by decide)
  exact h.trans (by decide)

theorem leadsWith_iff : ∀ p s : List Char, leadsWith p s = true ↔ ∃ t, s = p ++ t := by
  intro p
  induction p with
  | nil =>
    intro s
    simp [leadsWith]
  | cons a ps ih =>
    intro s
    cases s with
    | nil => simp [leadsWith]
    | cons c cs =>
      simp only [leadsWith, Bool.and_eq_true, beq_iff_eq]
      constructor
      · rintro ⟨hac, hlw⟩
        rcases (ih cs).mp hlw with ⟨t, rfl⟩
        subst hac
        exact ⟨t, rfl⟩
      · rintro ⟨t, ht⟩
        rw [List.cons_append] at ht
        injection ht with h1 h2
        exact ⟨h1.symm, (ih cs).mpr ⟨t, h2⟩⟩

theorem containsSub_iff : ∀ s t : List Char, containsSub s t = true ↔ HasSub s t := by
  intro s t
  induction s with
  | nil =>
    simp only [containsSub, HasSub]
    constructor
    · intro h
      rw [List.isEmpty_iff] at h
      exact ⟨[], [], by simp [h]⟩
    · rintro ⟨pre, post, h⟩
      have h2 := h.symm
      simp only [List.append_assoc, List.append_eq_nil] at h2
      rw [List.isEmpty_iff, h2.2.1]
  | cons c rest ih =>
    simp only [containsSub, Bool.or_eq_true]
    rw [leadsWith_iff t (c :: rest), ih]
    simp only [HasSub]
    constructor
    · rintro (⟨t2, h⟩ | ⟨pre, post, h⟩)
      · exact ⟨[], t2, by simpa using h⟩
      · exact ⟨c :: pre, post, by simp [h]⟩
    · rintro ⟨pre, post, h⟩
      cases pre with
      | nil =>
        left
        exact ⟨post, by simpa using h⟩
      | cons a pre2 =>
        right
        rw [List.cons_append, List.cons_append] at h
        injection h with h1 h2
        exact ⟨pre2, post, h2⟩

theorem containsSub_false_of_not (s t : List Char) (h : ¬ HasSub s t) :
    containsSub s t = false := by
  cases hc : containsSub s t
  · rfl
  · exact absurd ((containsSub_iff s t).mp hc) h

/-- Claim C6: extension classification is case-insensitive substring
matching in priority order gif, then jpeg/jpg, then png, with fallback
`img`; the five example content types classify as stated; and the
Unicode special case `"GİF"` (capital dotted I, which Go's case mapping
lowers to ASCII i) also classifies as gif. -/
theorem claim6_extension_classification :
    (∀ s t : List Char, goToLower s = goToLower t →
      determineFileExtension s = determineFileExtension t) ∧
    (determineFileExtension "image/gif".toList = "gif".toList ∧
     determineFileExtension "image/jpeg".toList = "jpg".toList ∧
     determineFileExtension "image/png".toList = "png".toList ∧
     determineFileExtension "application/octet-stream".toList = "img".toList ∧
     determineFileExtension "IMAGE/GIF".toList = "gif".toList ∧
     determineFileExtension "GİF".toList = "gif".toList) ∧
    (∀ s : List Char,
      (HasSub (goToLower s) "gif".toList → determineFileExtension s = "gif".toList) ∧
      (¬ HasSub (goToLower s) "gif".toList →
        (HasSub (goToLower s) "jpeg".toList ∨ HasSub (goToLower s) "jpg".toList) →
        determineFileExtension s = "jpg".toList) ∧
      (¬ HasSub (goToLower s) "gif".toList → ¬ HasSub (goToLower s) "jpeg".toList →
        ¬ HasSub (goToLower s) "jpg".toList → HasSub (goToLower s) "png".toList →
        determineFileExtension s = "png".toList) ∧
      (¬ HasSub (goToLower s) "gif".toList → ¬ HasSub (goToLower s) "jpeg".toList →
        ¬ HasSub (goToLower s) "jpg".toList → ¬ HasSub (goToLower s) "png".toList →
        determineFileExtension s = "img".toList)) := by
  refine ⟨?_, by decide, ?_⟩
  · intro s t h
    simp only [determineFileExtension]
    rw [h]
  · intro s
    refine ⟨?_, ?_, ?_, ?_⟩
    · intro hg
      have hc : containsSub (goToLower s) "gif".toList = true :=
        (containsSub_iff _ _).mpr hg
      simp only [determineFileExtension, hc]
      simp
    · intro hng hj
      have hcg := containsSub_false_of_not _ _ hng
      rcases hj with hj | hj
      · have hc : containsSub (goToLower s) "jpeg".toList = true :=
          (containsSub_iff _ _).mpr hj
        simp only [determineFileExtension, hcg, hc]
        simp
      · have hc : containsSub (goToLower s) "jpg".toList = true :=
          (containsSub_iff _ _).mpr hj
        simp only [determineFileExtension, hcg, hc]
        simp
    · intro hng hnje hnj hp
      have hcg := containsSub_false_of_not _ _ hng
      have hcje := containsSub_false_of_not _ _ hnje
      have hcj := containsSub_false_of_not _ _ hnj
      have hc : containsSub (goToLower s) "png".toList = true :=
        (containsSub_iff _ _).mpr hp
      simp only [determineFileExtension, hcg, hcje, hcj, hc]
      simp
    · intro hng hnje hnj hnp
      have hcg := containsSub_false_of_not _ _ hng
      have hcje := containsSub_false_of_not _ _ hnje
      have hcj := containsSub_false_of_not _ _ hnj
      have hcp := containsSub_false_of_not _ _ hnp
      simp only [determineFileExtension, hcg, hcje, hcj, hcp]
      simp

/-- Witness for claim C6: the mixed-case content type `"video/GIF"`
contains `"gif"` after lowering, so it classifies as `gif`. -/
theorem claim6_witness :
    determineFileExtension "video/GIF".toList = "gif".toList :=
  (claim6_extension_classification.2.2 "video/GIF".toList).1
    ⟨"video/".toList, [], by decide⟩

theorem chanLit_length : chanLit.length = 10 := by decide

theorem hasChanMatch_nil_false : ¬ HasChanMatch [] := by
  rintro ⟨pre, d, post, h, _⟩
  have hlen := congrArg List.length h
  simp [List.length_append, chanLit_length] at hlen
  omega

theorem dropWhile_head_false {p : Char → Bool} : ∀ (l : List Char) (c : Char),
    (l.dropWhile p).head? = some c → p c = false := by
  intro l
  induction l with
  | nil => intro c h; simp [List.dropWhile] at h
  | cons a rest ih =>
    intro c h
    rw [List.dropWhile_cons] at h
    by_cases ha : p a
    · rw [if_pos ha] at h
      exact ih c h
    · rw [if_neg ha] at h
      simp at h
      rw [← h]
      exact eq_false_of_ne_true ha

theorem findChannelsMatch_none_iff : ∀ s : List Char,
    findChannelsMatch s = none ↔ ¬ HasChanMatch s := by
  intro s
  induction s with
  | nil =>
    constructor
    · intro _
      exact hasChanMatch_nil_false
    · intro _
      rfl
  | cons c rest ih =>
    rw [findChannelsMatch]
    by_cases hl : leadsWith chanLit (c :: rest) = true
    · rcases (leadsWith_iff _ _).mp hl with ⟨t, ht⟩
      have hdrop : (c :: rest).drop chanLit.length = t := by
        rw [ht]; exact List.drop_left chanLit t
      rw [if_pos hl, hdrop]
      by_cases hdig : t.takeWhile isDigitChar = []
      · rw [if_pos hdig, ih]
        constructor
        · intro hnr hcm
          rcases hcm with ⟨pre, d, post, heq, hd⟩
          cases pre with
          | nil =>
            simp only [List.nil_append] at heq
            have ht2 : t = d :: post := by
              have h1 : (c :: rest).drop chanLit.length = d :: post := by
                rw [heq]; exact List.drop_left chanLit (d :: post)
              rw [hdrop] at h1
              exact h1
            rw [ht2, List.takeWhile_cons, if_pos hd] at hdig
            exact List.cons_ne_nil d _ hdig
          | cons a pretl =>
            apply hnr
            rw [List.cons_append] at heq
            injection heq with h1 h2
            exact ⟨pretl, d, post, h2, hd⟩
        · intro hncm hcr
          rcases hcr with ⟨pre, d, post, heq, hd⟩
          exact hncm ⟨c :: pre, d, post, by simp [heq], hd⟩
      · rw [if_neg hdig]
        constructor
        · intro h
          exact absurd h (by simp)
        · intro hncm
          exfalso
          apply hncm
          cases hts : t with
          | nil => rw [hts] at hdig; simp at hdig
          | cons d t2 =>
            rw [hts, List.takeWhile_cons] at hdig
            by_cases hd : isDigitChar d = true
            · refine ⟨[], d, t2, ?_, hd⟩
              rw [List.nil_append, ← hts, ← ht]
            · rw [if_neg hd] at hdig
              exact absurd rfl hdig
    · rw [if_neg hl, ih]
      constructor
      · intro hnr hcm
        rcases hcm with ⟨pre, d, post, heq, hd⟩
        cases pre with
        | nil =>
          apply hl
          apply (leadsWith_iff _ _).mpr
          exact ⟨d :: post, by simpa using heq⟩
        | cons a pretl =>
          apply hnr
          rw [List.cons_append] at heq
          injection heq with h1 h2
          exact ⟨pretl, d, post, h2, hd⟩
      · intro hncm hcr
        rcases hcr with ⟨pre, d, post, heq, hd⟩
        exact hncm ⟨c :: pre, d, post, by simp [heq], hd⟩

theorem findChannelsMatch_some_first : ∀ (s d : List Char),
    findChannelsMatch s = some d → FirstMatchDigits s d := by
  intro s
  induction s with
  | nil => intro d h; simp [findChannelsMatch] at h
  | cons c rest ih =>
    intro d h
    rw [findChannelsMatch] at h
    by_cases hl : leadsWith chanLit (c :: rest) = true
    · rcases (leadsWith_iff chanLit (c :: rest)).mp hl with ⟨t, ht⟩
      have hdrop : (c :: rest).drop chanLit.length = t := by
        rw [ht]; exact List.drop_left chanLit t
      rw [if_pos hl, hdrop] at h
      by_cases hdig : t.takeWhile isDigitChar = []
      · rw [if_pos hdig] at h
        rcases ih d h with ⟨pre, post, hdec, hdne, hdall, hpost, hleft⟩
        refine ⟨c :: pre, post, by simp [hdec], hdne, hdall, hpost, ?_⟩
        rintro pre2 d2 post2 heq hd2
        cases pre2 with
        | nil =>
          exfalso
          simp only [List.nil_append] at heq
          have ht2 : t = d2 :: post2 := by
            have h1 : (c :: rest).drop chanLit.length = d2 :: post2 := by
              rw [heq]; exact List.drop_left chanLit (d2 :: post2)
            rw [hdrop] at h1
            exact h1
          rw [ht2, List.takeWhile_cons, if_pos hd2] at hdig
          exact List.cons_ne_nil d2 _ hdig
        | cons a pre2tl =>
          rw [List.cons_append] at heq
          injection heq with h1 h2
          have := hleft pre2tl d2 post2 h2 hd2
          simp only [List.length_cons]
          omega
      · rw [if_neg hdig] at h
        injection h with hd
        refine ⟨[], t.dropWhile isDigitChar, ?_, by rw [← hd]; exact hdig, ?_, ?_,
          fun pre2 d2 post2 _ _ => Nat.zero_le _⟩
        · rw [ht, ← hd]
          simp [List.takeWhile_append_dropWhile]
        · intro ch hch
          rw [← hd] at hch
          exact List.mem_takeWhile_imp hch
        · intro ch hch
          exact dropWhile_head_false t ch hch
    · rw [if_neg hl] at h
      rcases ih d h with ⟨pre, post, hdec, hdne, hdall, hpost, hleft⟩
      refine ⟨c :: pre, post, by simp [hdec], hdne, hdall, hpost, ?_⟩
      rintro pre2 d2 post2 heq hd2
      cases pre2 with
      | nil =>
        exfalso
        apply hl
        apply (leadsWith_iff _ _).mpr
        exact ⟨d2 :: post2, by simpa using heq⟩
      | cons a pre2tl =>
        rw [List.cons_append] at heq
        injection heq with h1 h2
        have := hleft pre2tl d2 post2 h2 hd2
        simp only [List.length_cons]
        omega

/-- Claim C7: for a non-empty, non-numeric identifier, if the pattern
`/channels/(\d+)` matches neither the final post-redirect URL nor the
response body (matching characterised declaratively in the first
conjunct), resolution fails with `resolutionFailed` carrying the
identifier; when the pattern does match, the digits of the first
(leftmost, maximal) match are returned, the URL being consulted before
the body. -/
theorem claim7_resolution_failure :
    (∀ s : List Char, findChannelsMatch s = none ↔ ¬ HasChanMatch s) ∧
    (∀ s d : List Char, findChannelsMatch s = some d → FirstMatchDigits s d) ∧
    (∀ id url body : List Char, id ≠ [] → isNumericStr id = false →
      (findChannelsMatch url = none → findChannelsMatch body = none →
        resolveChannelIdentifierToID (.response url (some body)) id =
          .error (.resolutionFailed id)) ∧
      (∀ d, findChannelsMatch url = some d →
        resolveChannelIdentifierToID (.response url (some body)) id = .ok d) ∧
      (findChannelsMatch url = none → ∀ d, findChannelsMatch body = some d →
        resolveChannelIdentifierToID (.response url (some body)) id = .ok d)) := by
  refine ⟨findChannelsMatch_none_iff, findChannelsMatch_some_first, ?_⟩
  intro id url body hne hnn
  refine ⟨?_, ?_, ?_⟩
  · intro hu hb
    simp [resolveChannelIdentifierToID, hne, hnn, hu, hb]
  · intro d hu
    simp [resolveChannelIdentifierToID, hne, hnn, hu]
  · intro hu d hb
    simp [resolveChannelIdentifierToID, hne, hnn, hu, hb]

/-- Witness for claim C7: the non-numeric identifier `"abc"` with a
response whose URL and body contain no channel pattern fails with
`resolutionFailed "abc"`. -/
theorem claim7_witness :
    resolveChannelIdentifierToID (.response "https://x".toList (some "nope".toList))
      "abc".toList = .error (.resolutionFailed "abc".toList) :=
  (claim7_resolution_failure.2.2 "abc".toList "https://x".toList "nope".toList
    (by decide) (by decide)).1 (by decide) (by decide)

theorem trimSpace_nil : trimSpace [] = [] := rfl

theorem computeEmoteCode_eq_amended :
    ∀ (dr dt : Option (List Char)) (pt id : List Char),
      computeEmoteCode dr dt pt id = emoteCodeAmended dr dt pt id := by
  intro dr dt pt id
  rcases dr with _ | r
  · rcases dt with _ | t
    · simp [computeEmoteCode, emoteCodeAmended, trimSpace_nil]
    · by_cases htt : trimSpace t = []
      · simp [computeEmoteCode, emoteCodeAmended, trimSpace_nil, htt]
      · simp [computeEmoteCode, emoteCodeAmended, trimSpace_nil, htt]
  · by_cases hrr : trimSpace r = []
    · rcases dt with _ | t
      · simp [computeEmoteCode, emoteCodeAmended, trimSpace_nil, hrr]
      · by_cases htt : trimSpace t = []
        · simp [computeEmoteCode, emoteCodeAmended, trimSpace_nil, hrr, htt]
        · simp [computeEmoteCode, emoteCodeAmended, trimSpace_nil, hrr, htt]
    · simp [computeEmoteCode, emoteCodeAmended, trimSpace_nil, hrr]

theorem processImage_emoteCode :
    ∀ (rel : List Char → Option (List Char)) (img : ImgElement) (k : List Char)
      (d : EmoteData), processImage rel img = some (k, d) →
      d.emoteCode = computeEmoteCode img.dataRegex img.dataTooltip img.parentText k := by
  intro rel img k d h
  rcases img with ⟨src, dr, dt, pt⟩
  rcases src with _ | isrc
  · simp [processImage] at h
  · simp [processImage] at h
    obtain ⟨h1, h2, h⟩ := h
    rcases hfull : (if startsHTTP isrc = true then some isrc else rel isrc) with _ | full
    · rw [hfull] at h
      simp at h
    · rw [hfull] at h
      simp at h
      rcases hp : parseEmoteURL full with _ | trip
      · rw [hp] at h
        simp at h
      · rcases trip with ⟨eid, fmt, burl⟩
        rw [hp] at h
        simp at h
        obtain ⟨hk, hd⟩ := h
        subst hk
        rw [← hd]

/-- Claim C2 fails on the code: for an image whose `data-regex`
attribute is present but consists of a single space and which has no
tooltip, the code keeps the raw whitespace attribute value as the emote
code (the final emptiness check sees a non-empty string), whereas the
claimed fallback order would use the parent element's trimmed text. -/
theorem claim2_counterexample :
    computeEmoteCode (some [' ']) none "Pog".toList "999".toList = [' '] ∧
    emoteCodeClaimed (some [' ']) none "Pog".toList "999".toList = "Pog".toList ∧
    ([' '] : List Char) ≠ "Pog".toList := by
  decide

/-- Claim C2 (amended): the emote code is the raw `data-regex` value
when that is non-blank after trimming; otherwise the
stripped-and-trimmed tooltip when the raw tooltip is non-blank;
otherwise the raw `data-regex` value is kept (possibly whitespace);
only when the resulting code is the empty string does the code fall
back to the trimmed parent text, and finally to the emote identifier.
Every successfully processed image element carries an emote code
computed by this rule from its attributes and its identifier. -/
theorem claim2_amended_emote_code :
    (∀ (dr dt : Option (List Char)) (pt id : List Char),
      computeEmoteCode dr dt pt id = emoteCodeAmended dr dt pt id) ∧
    (∀ (rel : List Char → Option (List Char)) (img : ImgElement) (k : List Char)
      (d : EmoteData), processImage rel img = some (k, d) →
      d.emoteCode = emoteCodeAmended img.dataRegex img.dataTooltip img.parentText k) := by
  refine ⟨computeEmoteCode_eq_amended, ?_⟩
  intro rel img k d h
  rw [processImage_emoteCode rel img k d h]
  exact computeEmoteCode_eq_amended img.dataRegex img.dataTooltip img.parentText k

/-- Witness for claim C2 (amended) at a concrete image element carrying
a whitespace `data-regex`, no tooltip, and parent text `"Pog"`: the
record produced by processing carries the whitespace emote code, as the
amended rule prescribes. -/
theorem claim2_witness :
    ({ baseURL := "https://static-cdn.jtvnw.net/emoticons/v2/999/default".toList,
       formatType := "default".toList, emoteCode := [' '] } : EmoteData).emoteCode =
      emoteCodeAmended (some [' ']) none "Pog".toList "999".toList :=
  claim2_amended_emote_code.2 (fun _ => none)
    ⟨some "https://static-cdn.jtvnw.net/emoticons/v2/999/default/1.0".toList,
     some [' '], none, "Pog".toList⟩ "999".toList
    { baseURL := "https://static-cdn.jtvnw.net/emoticons/v2/999/default".toList,
      formatType := "default".toList, emoteCode := [' '] } (by decide)

theorem downloadSizesLoop_length :
    ∀ (a b c : List Char) (env : List Char → SizeFetchEnv) (sizes : List (List Char)),
      (downloadSizesLoop a b c env sizes).length = sizes.length := by
  intro a b c env sizes
  induction sizes with
  | nil => rfl
  | cons s rest ih => simp [downloadSizesLoop, ih]

theorem downloadSizesLoop_getD :
    ∀ (a b c : List Char) (env : List Char → SizeFetchEnv) (sizes : List (List Char))
      (i : Nat), i < sizes.length →
      (downloadSizesLoop a b c env sizes).getD i (.errorFolder []) =
        attemptSizeDownload a b c (sizes.getD i []) (env (sizes.getD i [])) := by
  intro a b c env sizes
  induction sizes with
  | nil => intro i hi; simp at hi
  | cons s rest ih =>
    intro i hi
    cases i with
    | zero => simp [downloadSizesLoop]
    | succ i0 =>
      simp only [downloadSizesLoop, List.getD_cons_succ]
      exact ih i0 (by simpa using hi)

theorem downloadAllEmotes_getD :
    ∀ (records : List (List Char × EmoteData)) (outputRoot : List Char)
      (mkdirOk : List Char → Bool) (env : List Char → List Char → SizeFetchEnv)
      (i : Nat), i < records.length →
      (downloadAllEmotes records outputRoot mkdirOk env).getD i [] =
        downloadEmoteImages (records.getD i ([], ⟨[], [], []⟩)).2 outputRoot
          (mkdirOk (records.getD i ([], ⟨[], [], []⟩)).1)
          (env (records.getD i ([], ⟨[], [], []⟩)).1) := by
  intro records outputRoot mkdirOk env
  induction records with
  | nil => intro i hi; simp at hi
  | cons kv rest ih =>
    intro i hi
    cases i with
    | zero => simp [downloadAllEmotes]
    | succ i0 =>
      simp only [downloadAllEmotes, List.map_cons, List.getD_cons_succ]
      exact ih i0 (by simpa using hi)

/-- Claim C8: with the emote folder created, the size loop over the
fixed list `1.0, 2.0, 3.0` produces exactly one log line per size, for
every combination of per-size outcomes (request construction failure,
transport failure, non-200 status, file creation failure, copy error,
or success), and the line of each size is a function of that size's own
outcome only — so a failure at one size never prevents the remaining
sizes from being attempted.  Likewise, every record of the scrape
result is processed, and each record's log block depends only on that
record's own folder and fetch outcomes, so failing sizes never abort
subsequent emotes or the overall run. -/
theorem claim8_per_size_isolation :
    (∀ (data : EmoteData) (outputRoot : List Char) (env : List Char → SizeFetchEnv),
      (downloadEmoteImages data outputRoot true env).length = emoteSizeList.length) ∧
    (∀ (data : EmoteData) (outputRoot : List Char) (env : List Char → SizeFetchEnv)
        (i : Nat), i < emoteSizeList.length →
      (downloadEmoteImages data outputRoot true env).getD i (.errorFolder []) =
        attemptSizeDownload (makeSafeName data.emoteCode)
          (outputRoot ++ '/' :: makeSafeName data.emoteCode) data.baseURL
          (emoteSizeList.getD i []) (env (emoteSizeList.getD i []))) ∧
    (∀ (records : List (List Char × EmoteData)) (outputRoot : List Char)
        (mkdirOk : List Char → Bool) (env : List Char → List Char → SizeFetchEnv),
      (downloadAllEmotes records outputRoot mkdirOk env).length = records.length) ∧
    (∀ (records : List (List Char × EmoteData)) (outputRoot : List Char)
        (mkdirOk : List Char → Bool) (env : List Char → List Char → SizeFetchEnv)
        (i : Nat), i < records.length →
      (downloadAllEmotes records outputRoot mkdirOk env).getD i [] =
        downloadEmoteImages (records.getD i ([], ⟨[], [], []⟩)).2 outputRoot
          (mkdirOk (records.getD i ([], ⟨[], [], []⟩)).1)
          (env (records.getD i ([], ⟨[], [], []⟩)).1)) := by
  refine ⟨?_, ?_, ?_, downloadAllEmotes_getD⟩
  · intro data outputRoot env
    simp [downloadEmoteImages, downloadSizesLoop_length]
  · intro data outputRoot env i hi
    simp only [downloadEmoteImages, Bool.not_true, if_neg]
    rw [if_neg (by simp)]
    exact downloadSizesLoop_getD _ _ _ env emoteSizeList i hi
  · intro records outputRoot mkdirOk env
    simp [downloadAllEmotes]

/-- Witness for claim C8: with an oracle that returns HTTP 404 for
every size, the second size `"2.0"` is still attempted and logs its own
skip line. -/
theorem claim8_witness :
    (downloadEmoteImages ⟨"bu".toList, "png".toList, "Pog".toList⟩ "out".toList true
        (fun _ => ⟨true, true, 404, "404 Not Found".toList, [], true, true⟩)).getD 1
        (.errorFolder []) =
      attemptSizeDownload (makeSafeName "Pog".toList)
        ("out".toList ++ '/' :: makeSafeName "Pog".toList) "bu".toList
        (emoteSizeList.getD 1 [])
        ⟨true, true, 404, "404 Not Found".toList, [], true, true⟩ :=
  claim8_per_size_isolation.2.1 ⟨"bu".toList, "png".toList, "Pog".toList⟩ "out".toList
    (fun _ => ⟨true, true, 404, "404 Not Found".toList, [], true, true⟩) 1 (by decide)

end TweDlp
